import Mathlib

set_option maxRecDepth 8000

/-!
Verification of the numerical core of `Bond.py`: the bond analytics engine
(yield grid search, durations) and the portfolio risk engine (portfolio
returns, volatility, Sharpe ratio, historical VaR, t-distribution expected
shortfall).

Numbers are modelled with exact rationals `ℚ` (the source uses IEEE floats;
the rational model is the exact idealization of the arithmetic the source
writes down).  The number of whole years to the call date `t` is modelled as
a natural number so that the exponent `2*t` in the call-price formula is an
integer power; the source applies the same formula with a float exponent.
-/

/-- The bond value object of `Bond.py` (`Bond.__init__`, lines 7-26).
Fields keep the source names. -/
structure Bond where
  price : ℚ
  coupon : ℚ
  call_price : ℚ
  face_value : ℚ
  t : ℕ
  years_to_maturity : ℚ
  num_coupon_periods : ℕ

/-- `self.n = int(years_to_maturity*num_coupon_periods)` (line 20).
Python `int` truncates toward zero; for the non-negative products of
interest this is the floor, and `Int.toNat` leaves such values unchanged. -/
def Bond.n (b : Bond) : ℕ :=
  (Int.toNat ⌊b.years_to_maturity * (b.num_coupon_periods : ℚ)⌋)

/-- The YTM pricing residual `f_ytm` (lines 34-41): present value of the
remaining coupons plus the discounted face value, minus the market price. -/
def f_ytm (b : Bond) (ytm : ℚ) : ℚ :=
  let C : ℚ := (b.coupon * 0.01 * b.face_value) / (b.num_coupon_periods : ℚ)
  (C * (1 - (1 / ((1 + ytm) ^ b.n)))) / ytm
    + (b.face_value / ((1 + ytm) ^ b.n)) - b.price

/-- The YTC pricing residual `f_ytc` (lines 43-50): semiannual convention,
periodic rate `ytc/2` over `2*t` periods, discounting the call price. -/
def f_ytc (b : Bond) (ytc : ℚ) : ℚ :=
  let C : ℚ := b.coupon * 0.01 * b.face_value
  (C / 2) * ((1 - 1 / ((1 + ytc / 2) ^ (2 * b.t))) / (ytc / 2))
    + b.call_price / ((1 + ytc / 2) ^ (2 * b.t)) - b.price

/-- The candidate yield grid `x1 = arange(0.0001, 1.0, 0.0001)` (line 59):
the 9999 rationals `0.0001, 0.0002, …, 0.9999`. -/
def yieldGrid : List ℚ :=
  (List.range 9999).map (fun k : ℕ => ((k : ℚ) + 1) / 10000)

/-- One step of the linear scan of lines 72-78: keep the index whose residual
has the smaller absolute value, preferring the earlier index on ties. -/
def bestStep (y : List ℚ) (init i : ℕ) : ℕ :=
  if |y.getD init 0| > |y.getD i 0| then i else init

/-- The scan loop of lines 66-78, for one residual array.  The source runs
both scans in a single `for` loop over the same index range with two
independent accumulators `initial_ytm`, `initial_ytc`; this is equivalent to
running the scan once per array. -/
def bestIdx (y : List ℚ) : ℕ :=
  (List.range y.length).foldl (bestStep y) 0

/-- `calculate_yields` (lines 52-88): evaluate both residuals on the grid,
pick the index minimizing each absolute residual, annualize the YTM by
`num_coupon_periods`, keep the YTC raw, and return `ytw = min ytm ytc`. -/
def calculate_yields (b : Bond) : ℚ × ℚ × ℚ :=
  let x1 := yieldGrid
  let y1 := x1.map (f_ytm b)
  let y2 := x1.map (f_ytc b)
  let ytm := (b.num_coupon_periods : ℚ) * x1.getD (bestIdx y1) 0
  let ytc := x1.getD (bestIdx y2) 0
  (ytm, ytc, min ytm ytc)

/-- `calculate_durations` (lines 90-113).  The source's final discount
`(1 + i) ** t` reuses the loop variable `t`, whose value after the loop is
`self.n` whenever `self.n ≥ 1` (with `self.n = 0` the source raises
`UnboundLocalError`); all claims about durations assume `n ≥ 1`.  Note the
source sets `c = self.coupon * 0.01 * self.face_value` — the full annual
coupon, not divided by `num_coupon_periods`. -/
def calculate_durations (b : Bond) (ytm : ℚ) : ℚ × ℚ :=
  let i : ℚ := b.coupon * 0.01
  let c : ℚ := b.coupon * 0.01 * b.face_value
  let pv : ℚ := ∑ t in Finset.Icc 1 b.n, (t : ℚ) * c / ((1 + i) ^ t)
  let macaulay_duration := (pv + ((b.n : ℚ) * b.face_value) / ((1 + i) ^ b.n)) / b.price
  let modified_duration := macaulay_duration / (1 + ytm / (b.num_coupon_periods : ℚ))
  (macaulay_duration, modified_duration)

/-- `calculate_bond_analytics` (lines 28-129): the returned 5-tuple
`(ytm, ytc, ytw, macaulay_duration, modified_duration)`. -/
def calculate_bond_analytics (b : Bond) : ℚ × ℚ × ℚ × ℚ × ℚ :=
  let ys := calculate_yields b
  let ds := calculate_durations b ys.1
  (ys.1, ys.2.1, ys.2.2, ds.1, ds.2)

/-! ### Properties of the linear scan -/

/-- Invariant of the scan loop: after processing indices `0, …, n-1` the
accumulator is an index below `n` whose entry has the smallest absolute value
among the processed entries. -/
lemma bestIdx_invariant (y : List ℚ) :
    ∀ n : ℕ, 1 ≤ n →
      (List.range n).foldl (bestStep y) 0 < n ∧
      ∀ i : ℕ, i < n →
        |y.getD ((List.range n).foldl (bestStep y) 0) 0| ≤ |y.getD i 0| := by
  intro n
  induction n with
  | zero => omega
  | succ m ih =>
    intro _
    rw [List.range_succ, List.foldl_append, List.foldl_cons, List.foldl_nil]
    by_cases hm : 1 ≤ m
    · obtain ⟨IH1, IH2⟩ := ih hm
      set j := (List.range m).foldl (bestStep y) 0 with hj
      unfold bestStep
      by_cases hc : |y.getD j 0| > |y.getD m 0|
      · rw [if_pos hc]
        refine ⟨Nat.lt_succ_self m, ?_⟩
        intro i hi
        rcases Nat.lt_succ_iff_lt_or_eq.mp hi with h1 | h2
        · exact le_trans (le_of_lt hc) (IH2 i h1)
        · subst h2; exact le_refl _
      · rw [if_neg hc]
        refine ⟨Nat.lt_succ_of_lt IH1, ?_⟩
        intro i hi
        rcases Nat.lt_succ_iff_lt_or_eq.mp hi with h1 | h2
        · exact IH2 i h1
        · subst h2; exact le_of_not_lt hc
    · have hm0 : m = 0 := by omega
      subst hm0
      simp only [List.range_zero, List.foldl_nil, bestStep]
      constructor
      · split <;> omega
      · intro i hi
        have : i = 0 := by omega
        subst this
        split <;> exact le_refl _

/-- The selected index is in range. -/
lemma bestIdx_lt (y : List ℚ) (h : 1 ≤ y.length) : bestIdx y < y.length :=
  (bestIdx_invariant y y.length h).1

/-- The selected entry minimizes the absolute value over the whole list. -/
lemma bestIdx_le (y : List ℚ) (h : 1 ≤ y.length) :
    ∀ i : ℕ, i < y.length → |y.getD (bestIdx y) 0| ≤ |y.getD i 0| :=
  (bestIdx_invariant y y.length h).2

/-! ### Properties of the yield grid -/

lemma yieldGrid_length : yieldGrid.length = 9999 := by
  unfold yieldGrid
  rw [List.length_map, List.length_range]

lemma yieldGrid_getD (i : ℕ) (h : i < 9999) :
    yieldGrid.getD i 0 = ((i : ℚ) + 1) / 10000 := by
  have hlen : i < yieldGrid.length := by rw [yieldGrid_length]; exact h
  rw [List.getD_eq_getElem _ _ hlen]
  unfold yieldGrid
  rw [List.getElem_map, List.getElem_range]

lemma yieldGrid_getD_mem (i : ℕ) (h : i < 9999) :
    yieldGrid.getD i 0 ∈ yieldGrid := by
  have hlen : i < yieldGrid.length := by rw [yieldGrid_length]; exact h
  rw [List.getD_eq_getElem _ _ hlen]
  exact List.get_mem _ _ _

/-- Every grid point lies in the closed interval `[0.0001, 0.9999]`. -/
lemma yieldGrid_bounds (y : ℚ) (h : y ∈ yieldGrid) :
    0.0001 ≤ y ∧ y ≤ 0.9999 := by
  obtain ⟨⟨i, hi⟩, rfl⟩ := List.mem_iff_get.mp h
  have h9 : i < 9999 := by rw [yieldGrid_length] at hi; exact hi
  rw [List.get_eq_getElem, ← List.getD_eq_getElem yieldGrid 0 hi, yieldGrid_getD i h9]
  have hk' : (i : ℚ) ≤ 9998 := by exact_mod_cast Nat.le_of_lt_succ h9
  have hk0 : (0 : ℚ) ≤ (i : ℚ) := Nat.cast_nonneg i
  constructor
  · rw [show (0.0001 : ℚ) = 1 / 10000 by norm_num]
    apply div_le_div_of_nonneg_right ?_ (by norm_num)
    linarith
  · rw [show (0.9999 : ℚ) = 9999 / 10000 by norm_num]
    apply div_le_div_of_nonneg_right ?_ (by norm_num)
    linarith

/-- `(yieldGrid.map f).getD` agrees with `f` on grid entries. -/
lemma yieldGrid_map_getD (f : ℚ → ℚ) (i : ℕ) (h : i < 9999) :
    (yieldGrid.map f).getD i 0 = f (yieldGrid.getD i 0) := by
  have hl : i < yieldGrid.length := by rw [yieldGrid_length]; exact h
  have hl2 : i < (yieldGrid.map f).length := by
    rw [List.length_map, yieldGrid_length]; exact h
  rw [List.getD_eq_getElem _ _ hl2, List.getD_eq_getElem _ _ hl, List.getElem_map]

/-- The scan over a residual array `yieldGrid.map f` selects a grid point
whose absolute residual is minimal over the whole grid. -/
lemma select_spec (f : ℚ → ℚ) :
    yieldGrid.getD (bestIdx (yieldGrid.map f)) 0 ∈ yieldGrid ∧
    ∀ y ∈ yieldGrid, |f (yieldGrid.getD (bestIdx (yieldGrid.map f)) 0)| ≤ |f y| := by
  have hlen : (yieldGrid.map f).length = 9999 := by
    rw [List.length_map, yieldGrid_length]
  have h1 : 1 ≤ (yieldGrid.map f).length := by rw [hlen]; norm_num
  have hj : bestIdx (yieldGrid.map f) < 9999 := by
    have := bestIdx_lt _ h1
    rwa [hlen] at this
  refine ⟨yieldGrid_getD_mem _ hj, ?_⟩
  intro y hy
  obtain ⟨⟨i, hi⟩, rfl⟩ := List.mem_iff_get.mp hy
  have h9 : i < 9999 := by rw [yieldGrid_length] at hi; exact hi
  have hmin := bestIdx_le (yieldGrid.map f) h1 i (by rw [hlen]; exact h9)
  rw [yieldGrid_map_getD f _ hj, yieldGrid_map_getD f i h9] at hmin
  rw [List.get_eq_getElem, ← List.getD_eq_getElem yieldGrid 0 hi]
  exact hmin

/-- Unfolded form of `calculate_yields`. -/
lemma calculate_yields_def (b : Bond) :
    calculate_yields b =
      ((b.num_coupon_periods : ℚ) * yieldGrid.getD (bestIdx (yieldGrid.map (f_ytm b))) 0,
       yieldGrid.getD (bestIdx (yieldGrid.map (f_ytc b))) 0,
       min ((b.num_coupon_periods : ℚ) * yieldGrid.getD (bestIdx (yieldGrid.map (f_ytm b))) 0)
         (yieldGrid.getD (bestIdx (yieldGrid.map (f_ytc b))) 0)) := by
  simp only [calculate_yields]

/-- The annualized YTM component of `calculate_yields`. -/
lemma calculate_yields_fst (b : Bond) :
    (calculate_yields b).1 =
      (b.num_coupon_periods : ℚ) * yieldGrid.getD (bestIdx (yieldGrid.map (f_ytm b))) 0 := by
  rw [calculate_yields_def]

/-- The YTC component of `calculate_yields`. -/
lemma calculate_yields_snd (b : Bond) :
    (calculate_yields b).2.1 =
      yieldGrid.getD (bestIdx (yieldGrid.map (f_ytc b))) 0 := by
  rw [calculate_yields_def]

/-- The YTW component of `calculate_yields`. -/
lemma calculate_yields_thd (b : Bond) :
    (calculate_yields b).2.2 = min (calculate_yields b).1 (calculate_yields b).2.1 := by
  rw [calculate_yields_def]

/-- Unfolded form of `calculate_bond_analytics`. -/
lemma calculate_bond_analytics_def (b : Bond) :
    calculate_bond_analytics b =
      ((calculate_yields b).1, (calculate_yields b).2.1, (calculate_yields b).2.2,
       (calculate_durations b (calculate_yields b).1).1,
       (calculate_durations b (calculate_yields b).1).2) := by
  simp only [calculate_bond_analytics]

/-- **C1**: for every bond with `remaining_periods ≥ 1`, `calculate_yields`
selects, independently for `f_ytm` and `f_ytc`, a candidate from the grid
`{0.0001, …, 0.9999}` minimizing the absolute residual; the returned YTM is
`num_coupon_periods` times the `f_ytm` candidate and the returned YTC is the
raw `f_ytc` candidate. -/
theorem calculate_yields_grid_argmin (b : Bond) (_hn : 1 ≤ b.n) :
    ∃ y1 ∈ yieldGrid, ∃ y2 ∈ yieldGrid,
      (calculate_yields b).1 = (b.num_coupon_periods : ℚ) * y1 ∧
      (calculate_yields b).2.1 = y2 ∧
      (∀ y ∈ yieldGrid, |f_ytm b y1| ≤ |f_ytm b y|) ∧
      (∀ y ∈ yieldGrid, |f_ytc b y2| ≤ |f_ytc b y|) := by
  obtain ⟨hm1, hmin1⟩ := select_spec (f_ytm b)
  obtain ⟨hm2, hmin2⟩ := select_spec (f_ytc b)
  refine ⟨_, hm1, _, hm2, ?_, ?_, hmin1, hmin2⟩
  · rw [calculate_yields_def]
  · rw [calculate_yields_def]

/-- **C4**: the Yield to Worst in the 5-tuple returned by
`calculate_bond_analytics` is the minimum of the YTM and YTC returned
alongside it. -/
theorem calculate_bond_analytics_ytw_min (b : Bond) :
    (calculate_bond_analytics b).2.2.1 =
      min (calculate_bond_analytics b).1 (calculate_bond_analytics b).2.1 := by
  rw [calculate_bond_analytics_def, calculate_yields_def]

/-- The three yields are strictly positive as soon as the bond pays at least
one coupon per year (with `num_coupon_periods = 0` the source raises
`ZeroDivisionError` inside `f_ytm` before returning). -/
lemma calculate_yields_pos (b : Bond) (h : 1 ≤ b.num_coupon_periods) :
    0 < (calculate_yields b).1 ∧ 0 < (calculate_yields b).2.1 ∧
    0 < (calculate_yields b).2.2 := by
  obtain ⟨hm1, -⟩ := select_spec (f_ytm b)
  obtain ⟨hm2, -⟩ := select_spec (f_ytc b)
  have hb1 := (yieldGrid_bounds _ hm1).1
  have hb2 := (yieldGrid_bounds _ hm2).1
  have hncp : (1 : ℚ) ≤ (b.num_coupon_periods : ℚ) := by exact_mod_cast h
  have hA : 0 < (b.num_coupon_periods : ℚ) *
      yieldGrid.getD (bestIdx (yieldGrid.map (f_ytm b))) 0 :=
    mul_pos (by linarith) (by linarith)
  have hB : 0 < yieldGrid.getD (bestIdx (yieldGrid.map (f_ytc b))) 0 := by linarith
  refine ⟨?_, ?_, ?_⟩ <;> rw [calculate_yields_def] <;> dsimp only
  · exact hA
  · exact hB
  · exact lt_min hA hB

/-- **C10**: whenever `calculate_yields` returns (which requires
`num_coupon_periods ≥ 1`), the YTC lies in `[0.0001, 0.9999]`, the YTM lies
in `[0.0001·num_coupon_periods, 0.9999·num_coupon_periods]`, and all three
reported yields — YTW included — are strictly positive. -/
theorem calculate_yields_range (b : Bond) (h : 1 ≤ b.num_coupon_periods) :
    0.0001 ≤ (calculate_yields b).2.1 ∧ (calculate_yields b).2.1 ≤ 0.9999 ∧
    0.0001 * (b.num_coupon_periods : ℚ) ≤ (calculate_yields b).1 ∧
    (calculate_yields b).1 ≤ 0.9999 * (b.num_coupon_periods : ℚ) ∧
    0 < (calculate_yields b).1 ∧ 0 < (calculate_yields b).2.1 ∧
    0 < (calculate_yields b).2.2 := by
  obtain ⟨hm1, -⟩ := select_spec (f_ytm b)
  obtain ⟨hm2, -⟩ := select_spec (f_ytc b)
  obtain ⟨hb1l, hb1r⟩ := yieldGrid_bounds _ hm1
  obtain ⟨hb2l, hb2r⟩ := yieldGrid_bounds _ hm2
  have hncp0 : (0 : ℚ) ≤ (b.num_coupon_periods : ℚ) := Nat.cast_nonneg _
  obtain ⟨hp1, hp2, hp3⟩ := calculate_yields_pos b h
  rw [calculate_yields_thd] at hp3
  rw [calculate_yields_fst] at hp1
  rw [calculate_yields_snd] at hp2
  rw [calculate_yields_fst, calculate_yields_snd, calculate_yields_thd,
    calculate_yields_fst, calculate_yields_snd]
  refine ⟨hb2l, hb2r, ?_, ?_, hp1, hp2, ?_⟩
  · linarith [mul_le_mul_of_nonneg_left hb1l hncp0]
  · linarith [mul_le_mul_of_nonneg_left hb1r hncp0]
  · rw [calculate_yields_fst, calculate_yields_snd] at hp3
    exact hp3

/-- **C9**: `calculate_bond_analytics` performs no input validation: on a
bond with a negative market price (price `-95`, the other fields valid) it
still returns a plain numeric 5-tuple — here witnessed by its strictly
positive YTW — instead of failing fast with an input-validation error. -/
theorem calculate_bond_analytics_negative_price :
    0 < (calculate_bond_analytics (Bond.mk (-95) 5 100 100 5 10 2)).2.2.1 := by
  rw [calculate_bond_analytics_def]
  exact (calculate_yields_pos (Bond.mk (-95) 5 100 100 5 10 2) (by norm_num)).2.2

/-! ### Durations -/

/-- The Macaulay Duration component of `calculate_durations`. -/
lemma calculate_durations_fst (b : Bond) (ytm : ℚ) :
    (calculate_durations b ytm).1 =
      ((∑ t in Finset.Icc 1 b.n, (t : ℚ) * (b.coupon * 0.01 * b.face_value) /
          ((1 + b.coupon * 0.01) ^ t))
        + ((b.n : ℚ) * b.face_value) / ((1 + b.coupon * 0.01) ^ b.n)) / b.price := by
  simp only [calculate_durations]

/-- The Modified Duration component of `calculate_durations`. -/
lemma calculate_durations_snd (b : Bond) (ytm : ℚ) :
    (calculate_durations b ytm).2 =
      (calculate_durations b ytm).1 / (1 + ytm / (b.num_coupon_periods : ℚ)) := by
  simp only [calculate_durations]

/-- For a bond with positive price and face value, a non-negative coupon and
at least one remaining period, the Macaulay Duration is strictly positive. -/
lemma macaulay_pos (b : Bond) (ytm : ℚ) (hp : 0 < b.price) (hf : 0 < b.face_value)
    (hc : 0 ≤ b.coupon) (hn : 1 ≤ b.n) : 0 < (calculate_durations b ytm).1 := by
  rw [calculate_durations_fst]
  have hi : (0 : ℚ) ≤ b.coupon * 0.01 := mul_nonneg hc (by norm_num)
  have h1i : (0 : ℚ) < 1 + b.coupon * 0.01 := by linarith
  apply div_pos ?_ hp
  apply add_pos_of_nonneg_of_pos
  · apply Finset.sum_nonneg
    intro t ht
    apply div_nonneg
    · exact mul_nonneg (Nat.cast_nonneg t) (mul_nonneg hi hf.le)
    · exact (pow_pos h1i t).le
  · apply div_pos
    · have hn0 : (0 : ℚ) < (b.n : ℚ) := by exact_mod_cast Nat.lt_of_lt_of_le Nat.zero_lt_one hn
      exact mul_pos hn0 hf
    · exact pow_pos h1i b.n

/-- **C5**: the Modified Duration returned by `calculate_durations` equals
Macaulay Duration divided by `1 + YTM/num_coupon_periods`; it is strictly
smaller than the Macaulay Duration whenever `YTM/num_coupon_periods > 0`
and equal to it when `YTM = 0`. -/
theorem calculate_durations_modified_vs_macaulay (b : Bond) (ytm : ℚ)
    (hp : 0 < b.price) (hf : 0 < b.face_value) (hc : 0 ≤ b.coupon) (hn : 1 ≤ b.n) :
    (calculate_durations b ytm).2 =
      (calculate_durations b ytm).1 / (1 + ytm / (b.num_coupon_periods : ℚ)) ∧
    (0 < ytm / (b.num_coupon_periods : ℚ) →
      (calculate_durations b ytm).2 < (calculate_durations b ytm).1) ∧
    (ytm = 0 → (calculate_durations b ytm).2 = (calculate_durations b ytm).1) := by
  refine ⟨calculate_durations_snd b ytm, ?_, ?_⟩
  · intro hx
    rw [calculate_durations_snd]
    exact div_lt_self (macaulay_pos b ytm hp hf hc hn) (by linarith)
  · intro h0
    rw [calculate_durations_snd, h0]
    norm_num

/-- Modelled from the claim (spec §4.1): Macaulay Duration computed with the
*periodic* coupon amount — the annual coupon payment divided by
`num_coupon_periods` — as the cash flow of each period.  This is the
quantity the claim asserts `calculate_durations` returns; the source instead
uses the full annual coupon for every period. -/
def claimMacaulayDuration (b : Bond) : ℚ :=
  let i : ℚ := b.coupon * 0.01
  let c : ℚ := b.coupon * 0.01 * b.face_value / (b.num_coupon_periods : ℚ)
  ((∑ t in Finset.Icc 1 b.n, (t : ℚ) * c / ((1 + i) ^ t))
    + ((b.n : ℚ) * b.face_value) / ((1 + i) ^ b.n)) / b.price

/-- **C2**: the source's Macaulay Duration disagrees with the claimed
formula on the bond (price 100, coupon 10 %, face 100, 1 year to maturity,
2 coupon periods/year, hence `n = 2`): the source discounts the full annual
coupon `10` each half-year and returns `21/11 ≈ 1.909`, while the claimed
periodic-coupon formula gives `431/242 ≈ 1.781`. -/
theorem calculate_durations_annual_coupon_divergence :
    (calculate_durations (Bond.mk 100 10 100 100 1 1 2) 0).1 = 21 / 11 ∧
    claimMacaulayDuration (Bond.mk 100 10 100 100 1 1 2) = 431 / 242 ∧
    (21 / 11 : ℚ) ≠ 431 / 242 := by
  have hn2 : (Bond.mk 100 10 100 100 1 1 2).n = 2 := by
    norm_num [Bond.n]
    decide
  have hsum : ∀ f : ℕ → ℚ, (∑ t in Finset.Icc 1 2, f t) = f 1 + f 2 := by
    intro f
    rw [show (2 : ℕ) = 1 + 1 from rfl, Finset.sum_Icc_succ_top (by norm_num),
      Finset.Icc_self, Finset.sum_singleton]
  refine ⟨?_, ?_, by norm_num⟩
  · rw [calculate_durations_fst]
    dsimp only
    rw [hn2, hsum]
    norm_num
  · simp only [claimMacaulayDuration]
    rw [hn2, hsum]
    norm_num

/-! ### Portfolio risk engine -/

/-- `np.mean` / row mean used by `np.cov`: the arithmetic mean of a
length-`T` series. -/
def pmean {T : ℕ} (x : Fin T → ℚ) : ℚ := (∑ t, x t) / (T : ℚ)

/-- `portfolio_returns` (lines 239-253): dot product of the weight vector
with the `N×T` return matrix, giving the length-`T` portfolio series. -/
def portfolio_returns {N T : ℕ} (returns : Fin N → Fin T → ℚ)
    (weights : Fin N → ℚ) : Fin T → ℚ :=
  fun t => ∑ i, weights i * returns i t

/-- Entry `(i, j)` of `np.cov(returns)` (line 312): sample covariance of
rows `i` and `j`, normalized by `T - 1` (numpy's default `ddof = 1`). -/
def cov {N T : ℕ} (returns : Fin N → Fin T → ℚ) (i j : Fin N) : ℚ :=
  (∑ t, (returns i t - pmean (returns i)) * (returns j t - pmean (returns j)))
    / ((T : ℚ) - 1)

/-- `portfolio_volatility` (lines 298-317): the quadratic form
`np.dot(np.dot(weights, covariance), w_T)[0]`. -/
def portfolio_volatility {N T : ℕ} (returns : Fin N → Fin T → ℚ)
    (weights : Fin N → ℚ) : ℚ :=
  ∑ j, (∑ i, weights i * cov returns i j) * weights j

/-- The sample variance (normalized by `T - 1`, matching `np.cov`) of a
length-`T` series — the direct variance computation the claim compares the
quadratic form against. -/
def sampleVariance {T : ℕ} (x : Fin T → ℚ) : ℚ :=
  (∑ t, (x t - pmean x) ^ 2) / ((T : ℚ) - 1)

/-- The mean of the portfolio series is the weighted sum of the row means. -/
lemma pmean_portfolio_returns {N T : ℕ} (returns : Fin N → Fin T → ℚ)
    (weights : Fin N → ℚ) :
    pmean (portfolio_returns returns weights) =
      ∑ i, weights i * pmean (returns i) := by
  unfold pmean portfolio_returns
  rw [Finset.sum_comm, Finset.sum_div]
  refine Finset.sum_congr rfl ?_
  intro i _
  rw [← Finset.mul_sum, mul_div_assoc]

/-- The deviation of the portfolio series is the weighted sum of the row
deviations. -/
lemma portfolio_returns_dev {N T : ℕ} (returns : Fin N → Fin T → ℚ)
    (weights : Fin N → ℚ) (t : Fin T) :
    portfolio_returns returns weights t -
        pmean (portfolio_returns returns weights) =
      ∑ i, weights i * (returns i t - pmean (returns i)) := by
  rw [pmean_portfolio_returns]
  unfold portfolio_returns
  rw [← Finset.sum_sub_distrib]
  refine Finset.sum_congr rfl ?_
  intro i _
  ring

/-- Bilinear expansion: the quadratic form in the deviation inner products
equals the sum of squared weighted deviations. -/
lemma quad_form_numerator {N T : ℕ} (d : Fin N → Fin T → ℚ) (w : Fin N → ℚ) :
    ∑ j, (∑ i, w i * (∑ t, d i t * d j t)) * w j
      = ∑ t, (∑ i, w i * d i t) ^ 2 := by
  calc ∑ j, (∑ i, w i * (∑ t, d i t * d j t)) * w j
      = ∑ j, ∑ i, (w i * (∑ t, d i t * d j t)) * w j := by
        refine Finset.sum_congr rfl ?_
        intro j _
        rw [Finset.sum_mul]
    _ = ∑ j, ∑ i, ∑ t, (w i * d i t) * (w j * d j t) := by
        refine Finset.sum_congr rfl ?_
        intro j _
        refine Finset.sum_congr rfl ?_
        intro i _
        rw [Finset.mul_sum, Finset.sum_mul]
        refine Finset.sum_congr rfl ?_
        intro t _
        ring
    _ = ∑ j, ∑ t, ∑ i, (w i * d i t) * (w j * d j t) := by
        refine Finset.sum_congr rfl ?_
        intro j _
        rw [Finset.sum_comm]
    _ = ∑ t, ∑ j, ∑ i, (w i * d i t) * (w j * d j t) := by
        rw [Finset.sum_comm]
    _ = ∑ t, (∑ i, w i * d i t) ^ 2 := by
        refine Finset.sum_congr rfl ?_
        intro t _
        rw [pow_two, Finset.sum_mul_sum, Finset.sum_comm]

/-- Pulling a constant divisor out of a weighted sum, factor on the right. -/
lemma sum_mul_div {n : ℕ} (w f : Fin n → ℚ) (c : ℚ) :
    ∑ i, w i * (f i / c) = (∑ i, w i * f i) / c := by
  rw [Finset.sum_div]
  refine Finset.sum_congr rfl ?_
  intro i _
  rw [mul_div_assoc]

/-- Pulling a constant divisor out of a weighted sum, factor on the left. -/
lemma sum_div_mul {n : ℕ} (f w : Fin n → ℚ) (c : ℚ) :
    ∑ j, (f j / c) * w j = (∑ j, f j * w j) / c := by
  rw [Finset.sum_div]
  refine Finset.sum_congr rfl ?_
  intro j _
  rw [div_mul_eq_mul_div]

/-- **C3**: for every weight vector and `N×T` return matrix with `T ≥ 2`,
the quadratic form `w·Cov(R)·wᵗ` computed by `portfolio_volatility` equals
the sample variance of the weighted-sum series `portfolio_returns R w`. -/
theorem portfolio_volatility_eq_sample_variance {N T : ℕ} (_hT : 2 ≤ T)
    (returns : Fin N → Fin T → ℚ) (weights : Fin N → ℚ) :
    portfolio_volatility returns weights =
      sampleVariance (portfolio_returns returns weights) := by
  unfold portfolio_volatility sampleVariance cov
  calc ∑ j, (∑ i, weights i *
          ((∑ t, (returns i t - pmean (returns i)) * (returns j t - pmean (returns j)))
            / ((T : ℚ) - 1))) * weights j
      = ∑ j, ((∑ i, weights i *
          (∑ t, (returns i t - pmean (returns i)) * (returns j t - pmean (returns j))))
            / ((T : ℚ) - 1)) * weights j := by
        refine Finset.sum_congr rfl ?_
        intro j _
        rw [sum_mul_div]
    _ = (∑ j, (∑ i, weights i *
          (∑ t, (returns i t - pmean (returns i)) * (returns j t - pmean (returns j))))
            * weights j) / ((T : ℚ) - 1) := by
        rw [sum_div_mul]
    _ = (∑ t, (∑ i, weights i * (returns i t - pmean (returns i))) ^ 2) / ((T : ℚ) - 1) := by
        rw [quad_form_numerator (fun i t => returns i t - pmean (returns i)) weights]
    _ = (∑ t, (portfolio_returns returns weights t -
          pmean (portfolio_returns returns weights)) ^ 2) / ((T : ℚ) - 1) := by
        refine congrArg (fun z => z / ((T : ℚ) - 1)) ?_
        refine Finset.sum_congr rfl ?_
        intro t _
        rw [portfolio_returns_dev]

/-! ### Sharpe ratio -/

/-- `np.mean` of a return series. -/
def listMean (xs : List ℚ) : ℚ := xs.sum / (xs.length : ℚ)

/-- `sharpe_ratio` (lines 320-337): `(mean(port_returns) - risk_free_rate)`
divided by the square root of the portfolio volatility.  The source performs
the division unconditionally — there is no guard on zero volatility. -/
noncomputable def sharpe_ratio {N T : ℕ} (port_returns : List ℚ)
    (risk_free_rate : ℚ) (asset_returns : Fin N → Fin T → ℚ)
    (weights : Fin N → ℚ) : ℝ :=
  ((listMean port_returns - risk_free_rate : ℚ) : ℝ) /
    Real.sqrt ((portfolio_volatility asset_returns weights : ℚ) : ℝ)

/-- The degenerate two-asset return matrix whose rows are constant in time
(asset 1 always returns `0.01`, asset 2 always `0.02`). -/
def constReturns : Fin 2 → Fin 2 → ℚ := fun i _ => ![0.01, 0.02] i

/-- Equal weights over the two assets. -/
def halfWeights : Fin 2 → ℚ := ![0.5, 0.5]

/-- Covariance entries of a return matrix with time-constant rows vanish. -/
lemma cov_const {N T : ℕ} (hT : (T : ℚ) ≠ 0) (c : Fin N → ℚ) (i j : Fin N) :
    cov (fun k (_ : Fin T) => c k) i j = 0 := by
  unfold cov pmean
  have hmean : ∀ k : Fin N, (∑ _t : Fin T, c k) / (T : ℚ) = c k := by
    intro k
    rw [Finset.sum_const, Finset.card_univ, Fintype.card_fin, nsmul_eq_mul]
    field_simp
  have hterm : ∀ t : Fin T,
      (c i - (∑ _t : Fin T, c i) / (T : ℚ)) * (c j - (∑ _t : Fin T, c j) / (T : ℚ)) = 0 := by
    intro t
    rw [hmean i, hmean j, sub_self, zero_mul]
  rw [Finset.sum_congr rfl (fun t _ => hterm t), Finset.sum_const_zero, zero_div]

/-- **C7**: `sharpe_ratio` does not guard the division by the portfolio
standard deviation.  On the degenerate input `constReturns`/`halfWeights`
the portfolio volatility is exactly zero, yet `sharpe_ratio` still goes
through the division (the source emits a float `inf`/`nan`; in the rational
model the division by zero collapses to `0`) instead of reporting a
distinct error condition. -/
theorem sharpe_ratio_zero_volatility_unguarded :
    portfolio_volatility constReturns halfWeights = 0 ∧
    sharpe_ratio [0.015, 0.015] 0.02 constReturns halfWeights = 0 := by
  have hcov : ∀ i j : Fin 2, cov constReturns i j = 0 := by
    intro i j
    have h := cov_const (T := 2) (by norm_num) (fun k => ![(0.01 : ℚ), 0.02] k) i j
    simpa only [constReturns] using h
  have hvol : portfolio_volatility constReturns halfWeights = 0 := by
    unfold portfolio_volatility
    rw [Finset.sum_congr rfl (fun j _ => ?_)]
    · rw [Finset.sum_const_zero]
    · rw [Finset.sum_congr rfl (fun i _ => by rw [hcov i j, mul_zero]),
        Finset.sum_const_zero, zero_mul]
  refine ⟨hvol, ?_⟩
  unfold sharpe_ratio
  rw [hvol]
  simp

/-! ### Historical VaR -/

/-- `historical_var` (lines 391-412): count the observations strictly below
`var_p` and divide by the number of observations.  On an empty series the
source raises `ZeroDivisionError` (`port_returns.shape[0] = 0`), modelled
here as `none`. -/
def historical_var (port_returns : List ℚ) (var_p : ℚ) : Option ℚ :=
  if port_returns.length = 0 then none
  else some (((port_returns.filter (fun r => r < var_p)).length : ℚ)
    / (port_returns.length : ℚ))

/-- Counting observations below a cutoff is monotone in the cutoff. -/
lemma length_filter_lt_mono (xs : List ℚ) {p q : ℚ} (h : p ≤ q) :
    (xs.filter (fun r => r < p)).length ≤ (xs.filter (fun r => r < q)).length := by
  induction xs with
  | nil => simp
  | cons a tl ih =>
    by_cases hap : a < p
    · have haq : a < q := lt_of_lt_of_le hap h
      simp only [List.filter_cons]
      rw [if_pos (by simpa using hap), if_pos (by simpa using haq)]
      simpa using ih
    · by_cases haq : a < q
      · simp only [List.filter_cons]
        rw [if_neg (by simpa using hap), if_pos (by simpa using haq)]
        simp only [List.length_cons]
        exact le_trans ih (Nat.le_succ _)
      · simp only [List.filter_cons]
        rw [if_neg (by simpa using hap), if_neg (by simpa using haq)]
        exact ih

/-- **C6** (amended): on every *nonempty* return series, `historical_var`
returns the fraction of observations strictly below `var_p`; that fraction
lies in `[0, 1]` and is monotone non-decreasing in `var_p`.  (On the empty
series the source raises `ZeroDivisionError` instead of returning a value;
see `historical_var_empty_none`.) -/
theorem historical_var_spec (xs : List ℚ) (p q : ℚ) (hne : xs ≠ []) (hpq : p ≤ q) :
    historical_var xs p =
      some (((xs.filter (fun r => r < p)).length : ℚ) / (xs.length : ℚ)) ∧
    (∀ r, historical_var xs p = some r → 0 ≤ r ∧ r ≤ 1) ∧
    (∀ r s, historical_var xs p = some r → historical_var xs q = some s → r ≤ s) := by
  have hlen : xs.length ≠ 0 := fun h0 => hne (List.length_eq_zero.mp h0)
  have hlen' : (0 : ℚ) < (xs.length : ℚ) := by
    have : 0 < xs.length := Nat.pos_of_ne_zero hlen
    exact_mod_cast this
  have heq : ∀ c : ℚ, historical_var xs c =
      some (((xs.filter (fun r => r < c)).length : ℚ) / (xs.length : ℚ)) := by
    intro c
    unfold historical_var
    rw [if_neg hlen]
  refine ⟨heq p, ?_, ?_⟩
  · intro r hr
    rw [heq p] at hr
    injection hr with hr
    subst hr
    constructor
    · exact div_nonneg (Nat.cast_nonneg _) hlen'.le
    · rw [div_le_one hlen']
      exact_mod_cast List.length_filter_le _ xs
  · intro r s hr hs
    rw [heq p] at hr
    rw [heq q] at hs
    injection hr with hr
    injection hs with hs
    subst hr
    subst hs
    apply div_le_div_of_nonneg_right ?_ hlen'.le
    exact_mod_cast length_filter_lt_mono xs hpq

/-- **C6** (counterexample to the claim as stated): on the *empty* return
series `historical_var` produces no value at all — the source raises
`ZeroDivisionError` — so the result does not equal a fraction in `[0, 1]`
"for any return series". -/
theorem historical_var_empty_none : historical_var ([] : List ℚ) 0 = none := rfl

/-! ### t-distribution Expected Shortfall -/

/-- The t-distribution Expected Shortfall of `risk_metrics` (line 380):
`(t.pdf(t.ppf(alpha)) * sigma * (d + t.ppf(alpha)^2)) / (alpha * (d - 1)) - mu`.
The density `tpdf` and quantile `tppf` of scipy's `stats.t(d)` are external
collaborators, taken here as arbitrary real functions. -/
noncomputable def t_dist_es (tpdf tppf : ℝ → ℝ) (sigma : ℝ) (d : ℕ)
    (alpha mu : ℝ) : ℝ :=
  (tpdf (tppf alpha) * sigma * ((d : ℝ) + (tppf alpha) ^ 2))
    / (alpha * ((d : ℝ) - 1)) - mu

/-- **C8**: `risk_metrics` never rejects degrees of freedom `d ≤ 1`.  At
`d = 1` the divisor `alpha * (d - 1)` of the t-distribution Expected
Shortfall is exactly zero for every density, quantile function, `sigma`,
`alpha` and `mu`: the source divides by zero (numpy produces a non-finite
float; in the model the division collapses) instead of raising an
invalid-parameter error before computation. -/
theorem t_dist_es_dof_one_division_by_zero (tpdf tppf : ℝ → ℝ)
    (sigma alpha mu : ℝ) :
    alpha * ((1 : ℕ) - 1 : ℝ) = 0 ∧
    t_dist_es tpdf tppf sigma 1 alpha mu = -mu := by
  constructor
  · norm_num
  · unfold t_dist_es
    norm_num

/-! ### Witnesses -/

/-- Witness for `calculate_yields_grid_argmin`: the spec's example bond
(price 95, coupon 5 %, call 100, face 100, 5 years to call, 10 years to
maturity, semiannual coupons), which has `n = 20 ≥ 1`. -/
theorem calculate_yields_grid_argmin_witness :
    1 ≤ (Bond.mk 95 5 100 100 5 10 2).n ∧
    (∃ y1 ∈ yieldGrid, ∃ y2 ∈ yieldGrid,
      (calculate_yields (Bond.mk 95 5 100 100 5 10 2)).1 =
        ((Bond.mk 95 5 100 100 5 10 2).num_coupon_periods : ℚ) * y1 ∧
      (calculate_yields (Bond.mk 95 5 100 100 5 10 2)).2.1 = y2 ∧
      (∀ y ∈ yieldGrid,
        |f_ytm (Bond.mk 95 5 100 100 5 10 2) y1| ≤ |f_ytm (Bond.mk 95 5 100 100 5 10 2) y|) ∧
      (∀ y ∈ yieldGrid,
        |f_ytc (Bond.mk 95 5 100 100 5 10 2) y2| ≤ |f_ytc (Bond.mk 95 5 100 100 5 10 2) y|)) :=
  ⟨by norm_num [Bond.n], calculate_yields_grid_argmin _ (by norm_num [Bond.n])⟩

/-- Witness for `portfolio_volatility_eq_sample_variance`: the spec's
two-asset, four-period scenario with equal weights. -/
theorem portfolio_volatility_eq_sample_variance_witness :
    (2 : ℕ) ≤ 4 ∧
    portfolio_volatility ![![(0.01 : ℚ), -0.02, 0.03, 0], ![0.02, 0.01, -0.01, 0.02]]
        ![(0.5 : ℚ), 0.5] =
      sampleVariance (portfolio_returns
        ![![(0.01 : ℚ), -0.02, 0.03, 0], ![0.02, 0.01, -0.01, 0.02]] ![(0.5 : ℚ), 0.5]) :=
  ⟨by norm_num, portfolio_volatility_eq_sample_variance (by norm_num) _ _⟩

/-- Witness for `calculate_durations_modified_vs_macaulay`: the example bond
with a strictly positive annualized YTM of `0.1`. -/
theorem calculate_durations_modified_vs_macaulay_witness :
    0 < (Bond.mk 95 5 100 100 5 10 2).price ∧
    0 < (Bond.mk 95 5 100 100 5 10 2).face_value ∧
    0 ≤ (Bond.mk 95 5 100 100 5 10 2).coupon ∧
    1 ≤ (Bond.mk 95 5 100 100 5 10 2).n ∧
    ((calculate_durations (Bond.mk 95 5 100 100 5 10 2) 0.1).2 =
      (calculate_durations (Bond.mk 95 5 100 100 5 10 2) 0.1).1 /
        (1 + 0.1 / ((Bond.mk 95 5 100 100 5 10 2).num_coupon_periods : ℚ)) ∧
    (0 < (0.1 : ℚ) / ((Bond.mk 95 5 100 100 5 10 2).num_coupon_periods : ℚ) →
      (calculate_durations (Bond.mk 95 5 100 100 5 10 2) 0.1).2 <
        (calculate_durations (Bond.mk 95 5 100 100 5 10 2) 0.1).1) ∧
    ((0.1 : ℚ) = 0 →
      (calculate_durations (Bond.mk 95 5 100 100 5 10 2) 0.1).2 =
        (calculate_durations (Bond.mk 95 5 100 100 5 10 2) 0.1).1)) :=
  ⟨by norm_num, by norm_num, by norm_num, by norm_num [Bond.n],
    calculate_durations_modified_vs_macaulay _ 0.1
      (by norm_num) (by norm_num) (by norm_num) (by norm_num [Bond.n])⟩

/-- Witness for `historical_var_spec`: the spec's portfolio return series
with cutoffs `0 ≤ 0.01`. -/
theorem historical_var_spec_witness :
    ([0.015, -0.005, 0.01, 0.01] : List ℚ) ≠ [] ∧ ((0 : ℚ) ≤ 0.01) ∧
    (historical_var [0.015, -0.005, 0.01, 0.01] 0 =
      some (((([0.015, -0.005, 0.01, 0.01] : List ℚ).filter (fun r => r < 0)).length : ℚ)
        / (([0.015, -0.005, 0.01, 0.01] : List ℚ).length : ℚ)) ∧
    (∀ r, historical_var [0.015, -0.005, 0.01, 0.01] 0 = some r → 0 ≤ r ∧ r ≤ 1) ∧
    (∀ r s, historical_var [0.015, -0.005, 0.01, 0.01] 0 = some r →
      historical_var [0.015, -0.005, 0.01, 0.01] 0.01 = some s → r ≤ s)) :=
  ⟨by simp, by norm_num,
    historical_var_spec [0.015, -0.005, 0.01, 0.01] 0 0.01 (by simp) (by norm_num)⟩

/-- Witness for `calculate_yields_range`: the example bond pays two coupons
per year. -/
theorem calculate_yields_range_witness :
    1 ≤ (Bond.mk 95 5 100 100 5 10 2).num_coupon_periods ∧
    (0.0001 ≤ (calculate_yields (Bond.mk 95 5 100 100 5 10 2)).2.1 ∧
    (calculate_yields (Bond.mk 95 5 100 100 5 10 2)).2.1 ≤ 0.9999 ∧
    0.0001 * ((Bond.mk 95 5 100 100 5 10 2).num_coupon_periods : ℚ) ≤
      (calculate_yields (Bond.mk 95 5 100 100 5 10 2)).1 ∧
    (calculate_yields (Bond.mk 95 5 100 100 5 10 2)).1 ≤
      0.9999 * ((Bond.mk 95 5 100 100 5 10 2).num_coupon_periods : ℚ) ∧
    0 < (calculate_yields (Bond.mk 95 5 100 100 5 10 2)).1 ∧
    0 < (calculate_yields (Bond.mk 95 5 100 100 5 10 2)).2.1 ∧
    0 < (calculate_yields (Bond.mk 95 5 100 100 5 10 2)).2.2) :=
  ⟨by norm_num, calculate_yields_range _ (by norm_num)⟩
